import Mathlib

/-!
Verification development for a small cryptanalysis tool-set:
boomerang connectivity / difference tables (BCT, BDT) for two hardcoded
S-boxes, and higher-order GF(2) derivatives of a reduced-round Gimli
permutation.  All definitions below are shallow embeddings of the C
sources (`bct_present.c`, `gimli boomerang/bdt.c`,
`higher_order_gimli/higher_order.c`); definitions whose names end in
`_spec` or `_stated` instead follow the specification text, so that the
theorems can compare the two.
-/

/-- XOR on 3-bit values, the `^` of the C code restricted to `[0,8)`.
The `% 8` never truncates: the XOR of two values below `8` is below `8`. -/
def xor8 (a b : Fin 8) : Fin 8 := ⟨(a.val ^^^ b.val) % 8, Nat.mod_lt _ (by norm_num)⟩

/-- XOR on 4-bit values, the `^` of the C code restricted to `[0,16)`. -/
def xor16 (a b : Fin 16) : Fin 16 := ⟨(a.val ^^^ b.val) % 16, Nat.mod_lt _ (by norm_num)⟩

/-- `SBOX` from `gimli boomerang/bdt.c`. -/
def SBOX8 : Fin 8 → Fin 8 := ![7, 4, 6, 1, 0, 5, 2, 3]

/-- `INV_SBOX` from `gimli boomerang/bdt.c`. -/
def INV_SBOX8 : Fin 8 → Fin 8 := ![4, 3, 6, 7, 1, 5, 2, 0]

/-- `SBOX` from `bct_present.c`. -/
def SBOX16 : Fin 16 → Fin 16 := ![12, 5, 6, 11, 9, 0, 10, 13, 3, 14, 15, 8, 4, 7, 1, 2]

/-- `INV_SBOX` from `bct_present.c`. -/
def INV_SBOX16 : Fin 16 → Fin 16 := ![5, 14, 15, 8, 12, 1, 2, 13, 11, 4, 6, 3, 0, 7, 9, 10]

/-- The table-filling loop of `compute_bct` in `gimli boomerang/bdt.c`:
for each `(a, b)` the inner loop over `x` increments `count` whenever
`inv_sbox[sbox[x]^b] ^ inv_sbox[sbox[x^a]^b] == a`; the cell `(a, b)`
receives the final `count`. -/
def compute_bct8 (sbox inv_sbox : Fin 8 → Fin 8) (a b : Fin 8) : Nat :=
  (List.finRange 8).foldl
    (fun count x =>
      if xor8 (inv_sbox (xor8 (sbox x) b)) (inv_sbox (xor8 (sbox (xor8 x a)) b)) = a then
        count + 1
      else count)
    0

/-- The table-filling loop of `compute_bdt` in `gimli boomerang/bdt.c`:
cell `(d0, d1, nabla0)` receives the number of `x` with
`inv_sbox[sbox[x]^nabla0] ^ inv_sbox[sbox[x^d0]^nabla0] == d1`. -/
def compute_bdt8 (sbox inv_sbox : Fin 8 → Fin 8) (d0 d1 nabla0 : Fin 8) : Nat :=
  (List.finRange 8).foldl
    (fun count x =>
      if xor8 (inv_sbox (xor8 (sbox x) nabla0))
          (inv_sbox (xor8 (sbox (xor8 x d0)) nabla0)) = d1 then
        count + 1
      else count)
    0

/-- The table-filling loop of `compute_bct` in `bct_present.c` (the 16-entry
variant); the printing that follows it in the same C function is modelled
separately by `compute_bct16_output`. -/
def compute_bct16 (sbox inv_sbox : Fin 16 → Fin 16) (a b : Fin 16) : Nat :=
  (List.finRange 16).foldl
    (fun count x =>
      if xor16 (inv_sbox (xor16 (sbox x) b)) (inv_sbox (xor16 (sbox (xor16 x a)) b)) = a then
        count + 1
      else count)
    0

/-- The printing section of `compute_bct` in `bct_present.c`, modelled as the
trace of numeric payloads handed to `printf` in order: the header prints the
column indices `0..15`, then each row prints its row index `a` followed by the
sixteen table entries `bct[a][b]`.  (Separator strings carry no data and
contribute nothing to the trace; an empty trace means no output at all.) -/
def compute_bct16_output (sbox inv_sbox : Fin 16 → Fin 16) : List Nat :=
  ((List.finRange 16).map (fun b => b.val))
    ++ (List.finRange 16).foldl
      (fun out a =>
        out ++ (a.val :: (List.finRange 16).map (fun b => compute_bct16 sbox inv_sbox a b)))
      []

/-- The per-pair sum `Σ_{d1} bdt[d0][d1][nabla0]` computed by the verification
loop in `main` of `gimli boomerang/bdt.c` (`sum += bdt[d0][d1][nabla0]`),
on the tables built there from `SBOX8` and `INV_SBOX8`. -/
def bdt_main_sum (d0 nabla0 : Fin 8) : Nat :=
  (List.finRange 8).foldl (fun s d1 => s + compute_bdt8 SBOX8 INV_SBOX8 d0 d1 nabla0) 0

/-- `valid_count` computed by `main` of `gimli boomerang/bdt.c`: the number of
pairs `(d0, nabla0)` whose `d1`-sum of BDT entries equals the BCT entry. -/
def bdt_main_valid_count : Nat :=
  (List.finRange 8).foldl
    (fun vc d0 =>
      (List.finRange 8).foldl
        (fun vc nabla0 =>
          if bdt_main_sum d0 nabla0 = compute_bct8 SBOX8 INV_SBOX8 d0 nabla0 then vc + 1
          else vc)
        vc)
    0

/-- `all_ok` computed by `main` of `gimli boomerang/bdt.c`: starts at `true`
and is cleared by any mismatching pair. -/
def bdt_main_all_ok : Bool :=
  (List.finRange 8).foldl
    (fun ok d0 =>
      (List.finRange 8).foldl
        (fun ok nabla0 =>
          if bdt_main_sum d0 nabla0 = compute_bct8 SBOX8 INV_SBOX8 d0 nabla0 then ok
          else false)
        ok)
    true

/-- A 12-word Gimli state; each word models a C `uint32_t` as a natural
number below `2^32` (all writes reduce `mod 2^32` exactly where the C
`uint32_t` arithmetic does). -/
abbrev GState := Fin 12 → Nat

/-- A C `uint32_t` left shift: the shifted value reduced `mod 2^32`. -/
def shl32 (x b : Nat) : Nat := (x <<< b) % 2 ^ 32

/-- The `ROTL32` macro of `higher_order.c`: `((x<<b) | (x>>(32-b)))` in
`uint32_t` arithmetic. -/
def rotl32 (x b : Nat) : Nat := shl32 x b ||| x >>> (32 - b)

/-- One iteration of the column loop of `gimli_permutation`: reads
`state[col]`, `state[col+4]`, `state[col+8]` into `x`, `y`, `z` and rewrites
the three words in the order the C code does. -/
def column_step (col : Fin 4) (s : GState) : GState :=
  let x := rotl32 (s ⟨col.val, by have := col.isLt; omega⟩) 24
  let y := rotl32 (s ⟨col.val + 4, by have := col.isLt; omega⟩) 9
  let z := s ⟨col.val + 8, by have := col.isLt; omega⟩
  let s1 := Function.update s ⟨col.val + 8, by have := col.isLt; omega⟩
    (x ^^^ shl32 z 1 ^^^ shl32 (y &&& z) 2)
  let s2 := Function.update s1 ⟨col.val + 4, by have := col.isLt; omega⟩
    (y ^^^ x ^^^ shl32 (x ||| z) 1)
  Function.update s2 ⟨col.val, by have := col.isLt; omega⟩
    (z ^^^ y ^^^ shl32 (x &&& y) 3)

/-- One round of `gimli_permutation` in `higher_order.c`: the four column
steps, then the two conditional swap steps keyed on `round & 3`, with the
constant `0x9e377900 ^ round` injected into word `0` in the `round & 3 == 0`
case. -/
def gimli_round (round : Nat) (s : GState) : GState :=
  let s := (List.finRange 4).foldl (fun t col => column_step col t) s
  let s :=
    if round &&& 3 = 0 then
      let sa := Function.update (Function.update s 0 (s 1)) 1 (s 0)
      let sb := Function.update (Function.update sa 2 (sa 3)) 3 (sa 2)
      Function.update sb 0 (sb 0 ^^^ (0x9e377900 ^^^ round))
    else s
  if round &&& 3 = 2 then
    let sa := Function.update (Function.update s 0 (s 2)) 2 (s 0)
    Function.update (Function.update sa 1 (sa 3)) 3 (sa 1)
  else s

/-- `gimli_permutation` of `higher_order.c`: the round counter runs from `4`
down to `1`. -/
def gimli_permutation (s : GState) : GState :=
  [4, 3, 2, 1].foldl (fun t round => gimli_round round t) s

/-- The bit basis built by `generate_bit_basis`: the 32 one-bit masks
`1 << i`. -/
def generate_bit_basis : List Nat := (List.range 32).map (fun i => 1 <<< i)

/-- `apply_diff` of `higher_order.c`: starting from a copy of `base`, for
each `i < order` with bit `i` set in `subset`, XORs `basis[i]` into word
`word_index`. -/
def apply_diff (base : GState) (order : Nat) (word_index : Fin 12) (subset : Nat) : GState :=
  (List.range order).foldl
    (fun temp i =>
      if subset &&& (1 <<< i) ≠ 0 then
        Function.update temp word_index (temp word_index ^^^ generate_bit_basis.getD i 0)
      else temp)
    base

/-- `compute_derivative` of `higher_order.c`: XOR-accumulates, over all
`subset < 2^order`, word `word_index` of the permuted perturbed state. -/
def compute_derivative (base : GState) (word_index : Fin 12) (order : Nat) : Nat :=
  (List.range (1 <<< order)).foldl
    (fun result subset =>
      result ^^^ gimli_permutation (apply_diff base order word_index subset) word_index)
    0

/-- The column step as the specification states it: every word of the new
state is given simultaneously by the formula for its position (`col`,
`col+4` or `col+8`). -/
def gimli_columns_stated (s : GState) : GState := fun i =>
  if h4 : i.val < 4 then
    let x := rotl32 (s ⟨i.val, by omega⟩) 24
    let y := rotl32 (s ⟨i.val + 4, by omega⟩) 9
    let z := s ⟨i.val + 8, by omega⟩
    z ^^^ y ^^^ shl32 (x &&& y) 3
  else if h8 : i.val < 8 then
    let col := i.val - 4
    let x := rotl32 (s ⟨col, by omega⟩) 24
    let y := rotl32 (s ⟨col + 4, by omega⟩) 9
    let z := s ⟨col + 8, by omega⟩
    y ^^^ x ^^^ shl32 (x ||| z) 1
  else
    let col := i.val - 8
    let x := rotl32 (s ⟨col, by have := i.isLt; omega⟩) 24
    let y := rotl32 (s ⟨col + 4, by have := i.isLt; omega⟩) 9
    let z := s ⟨col + 8, by have := i.isLt; omega⟩
    x ^^^ shl32 z 1 ^^^ shl32 (y &&& z) 2

/-- The `round mod 4 == 0` swap as the specification states it:
words `0 <-> 1` and `2 <-> 3` exchanged. -/
def swap_stated_small (s : GState) : GState := fun i =>
  if i.val = 0 then s 1
  else if i.val = 1 then s 0
  else if i.val = 2 then s 3
  else if i.val = 3 then s 2
  else s i

/-- The `round mod 4 == 2` swap as the specification states it:
words `0 <-> 2` and `1 <-> 3` exchanged. -/
def swap_stated_big (s : GState) : GState := fun i =>
  if i.val = 0 then s 2
  else if i.val = 1 then s 3
  else if i.val = 2 then s 0
  else if i.val = 3 then s 1
  else s i

/-- One round as the specification states it: the column step, then, when
`round mod 4 = 0`, the small swap with the constant `0x9e377900 ^ round`
XORed into word `0`, and, when `round mod 4 = 2`, the big swap. -/
def gimli_round_stated (round : Nat) (s : GState) : GState :=
  let s := gimli_columns_stated s
  let s :=
    if round % 4 = 0 then
      fun i =>
        if i.val = 0 then swap_stated_small s i ^^^ (0x9e377900 ^^^ round)
        else swap_stated_small s i
    else s
  if round % 4 = 2 then swap_stated_big s else s

/-- The permutation as the specification states it: rounds `4, 3, 2, 1`. -/
def gimli_permutation_stated (s : GState) : GState :=
  gimli_round_stated 1 (gimli_round_stated 2 (gimli_round_stated 3 (gimli_round_stated 4 s)))

/-- The XOR of the selected one-bit masks `1<<0, ..., 1<<(order-1)`: the
perturbation that the specification says a subset (encoded by the bits of
`subset`) contributes to the chosen word. -/
def subset_mask_xor (order subset : Nat) : Nat :=
  (List.range order).foldl
    (fun m i => if subset &&& (1 <<< i) ≠ 0 then m ^^^ (1 <<< i) else m) 0

/-- The derivative as the specification states it: XOR, over all `2^order`
subsets of the masks, of word `w` of the permutation of the base state with
the selected masks XORed into word `w` and every other word untouched. -/
def derivative_stated (base : GState) (w : Fin 12) (order : Nat) : Nat :=
  (List.range (2 ^ order)).foldl
    (fun acc subset =>
      acc ^^^ gimli_permutation
        (Function.update base w (base w ^^^ subset_mask_xor order subset)) w)
    0

/-- The initial state hardcoded in `main` of `higher_order.c`. -/
def initial_state : GState := ![1, 0, 0, 0, 0, 0, 0, 0, 0, 0, 0, 0]

/-- A counting loop `if p x then count+1 else count` over a list computes the
number of satisfying elements. -/
lemma foldl_count_eq_countP {α : Type} (p : α → Prop) [DecidablePred p]
    (l : List α) (acc : Nat) :
    l.foldl (fun c x => if p x then c + 1 else c) acc
      = acc + l.countP (fun x => decide (p x)) := by
  induction l generalizing acc with
  | nil => simp
  | cons hd tl ih =>
    rw [List.foldl_cons, ih, List.countP_cons]
    by_cases h : p hd
    · rw [if_pos h, if_pos (by simp [h])]
      omega
    · rw [if_neg h, if_neg (by simp [h])]
      omega

/-- Counting the satisfying elements of `List.finRange n` is the cardinality
of the corresponding subset of `Fin n`. -/
lemma countP_finRange_eq_card {n : Nat} (p : Fin n → Prop) [DecidablePred p] :
    (List.finRange n).countP (fun x => decide (p x)) = (Finset.univ.filter p).card := by
  rw [Fin.univ_def]
  simp [Finset.filter, Finset.card, List.countP_eq_length_filter, Multiset.filter_coe]

/-- The C counting loop over `x` in `[0,n)` computes the cardinality of the
satisfying set. -/
lemma foldl_count_finRange_eq_card {n : Nat} (p : Fin n → Prop) [DecidablePred p] :
    (List.finRange n).foldl (fun c x => if p x then c + 1 else c) 0
      = (Finset.univ.filter p).card := by
  rw [foldl_count_eq_countP, countP_finRange_eq_card, Nat.zero_add]

/-- `xor8` facts used throughout, checked by enumeration. -/
lemma xor8_zero_right : ∀ x : Fin 8, xor8 x 0 = x := by decide

lemma xor8_self : ∀ x : Fin 8, xor8 x x = 0 := by decide

lemma xor8_comm : ∀ x y : Fin 8, xor8 x y = xor8 y x := by decide

lemma xor8_cancel : ∀ x a : Fin 8, xor8 x (xor8 x a) = a := by decide

lemma xor8_invol : ∀ x a : Fin 8, xor8 (xor8 x a) a = x := by decide

lemma xor8_ne_self : ∀ a : Fin 8, a ≠ 0 → ∀ x : Fin 8, xor8 x a ≠ x := by decide

lemma xor16_zero_right : ∀ x : Fin 16, xor16 x 0 = x := by decide

lemma xor16_self : ∀ x : Fin 16, xor16 x x = 0 := by decide

lemma xor16_comm : ∀ x y : Fin 16, xor16 x y = xor16 y x := by decide

lemma xor16_cancel : ∀ x a : Fin 16, xor16 x (xor16 x a) = a := by decide

lemma xor16_invol : ∀ x a : Fin 16, xor16 (xor16 x a) a = x := by decide

lemma xor16_ne_self : ∀ a : Fin 16, a ≠ 0 → ∀ x : Fin 16, xor16 x a ≠ x := by decide

/-- A finite set closed under a fixed-point-free involution has even
cardinality (pairing argument, carried out as a vanishing sum in `ZMod 2`). -/
lemma even_card_filter_of_involution {n : Nat} (p : Fin n → Prop) [DecidablePred p]
    (g : Fin n → Fin n) (hcl : ∀ x, p x → p (g x)) (hinv : ∀ x, g (g x) = x)
    (hne : ∀ x, g x ≠ x) : Even (Finset.univ.filter p).card := by
  have hsum : ∑ _x ∈ Finset.univ.filter p, (1 : ZMod 2) = 0 :=
    Finset.sum_involution (fun a _ => g a)
      (fun a _ => by decide)
      (fun a _ _ => hne a)
      (fun a ha => Finset.mem_filter.mpr
        ⟨Finset.mem_univ _, hcl a (Finset.mem_filter.mp ha).2⟩)
      (fun a _ => hinv a)
  rw [Finset.sum_const, nsmul_eq_mul, mul_one] at hsum
  have hdvd : 2 ∣ (Finset.univ.filter p).card :=
    (ZMod.natCast_zmod_eq_zero_iff_dvd _ 2).mp hsum
  exact even_iff_two_dvd.mpr hdvd

lemma finRange_four : List.finRange 4 = [0, 1, 2, 3] := by decide

/-- The sequential column loop computes the simultaneous column map. -/
lemma columns_fold_eq_stated (s : GState) :
    (List.finRange 4).foldl (fun t col => column_step col t) s = gimli_columns_stated s := by
  rw [finRange_four]
  show column_step 3 (column_step 2 (column_step 1 (column_step 0 s))) = _
  funext i
  fin_cases i <;>
    simp +decide [column_step, gimli_columns_stated, Function.update] <;>
    rfl

/-- One code round equals one stated round whenever `round & 3` agrees with
`round mod 4` (true of every natural number; supplied as a hypothesis and
discharged by computation at the four concrete rounds used). -/
lemma gimli_round_eq_stated (r : Nat) (hr : r &&& 3 = r % 4) (s : GState) :
    gimli_round r s = gimli_round_stated r s := by
  simp only [gimli_round, gimli_round_stated]
  rw [columns_fold_eq_stated, hr]
  by_cases h0 : r % 4 = 0
  · have h2 : ¬ r % 4 = 2 := by omega
    rw [if_pos h0, if_pos h0, if_neg h2, if_neg h2]
    funext i
    fin_cases i <;> simp +decide [swap_stated_small, Function.update]
  · rw [if_neg h0, if_neg h0]
    by_cases h2 : r % 4 = 2
    · rw [if_pos h2, if_pos h2]
      funext i
      fin_cases i <;> simp +decide [swap_stated_big, Function.update]
    · rw [if_neg h2, if_neg h2]

lemma generate_bit_basis_getD : ∀ i, i < 32 → generate_bit_basis.getD i 0 = 1 <<< i := by
  decide

/-- The sequential XOR loop of `apply_diff` is one update of the chosen word
by the accumulated mask. -/
lemma apply_diff_eq_update (base : GState) (w : Fin 12) (subset : Nat) :
    ∀ order, order ≤ 32 →
      apply_diff base order w subset
        = Function.update base w (base w ^^^ subset_mask_xor order subset) := by
  intro order
  induction order with
  | zero =>
    intro _
    simp [apply_diff, subset_mask_xor, Function.update_eq_self]
  | succ n ih =>
    intro hle
    have hn : n ≤ 32 := by omega
    simp only [apply_diff, subset_mask_xor, List.range_succ, List.foldl_append,
      List.foldl_cons, List.foldl_nil] at ih ⊢
    rw [ih hn]
    by_cases h : subset &&& (1 <<< n) ≠ 0
    · rw [if_pos h, if_pos h, generate_bit_basis_getD n (by omega),
        Function.update_same, Function.update_idem, Nat.xor_assoc]
    · rw [if_neg h, if_neg h]

/-- C8: the two hardcoded S-box pairs are mutual inverses: for the 8-entry
pair of the bdt tool and the 16-entry pair of the present tool,
`sbox[inv_sbox[v]] == v` and `inv_sbox[sbox[v]] == v` for all `v`. -/
theorem sboxes_mutual_inverses :
    (∀ v : Fin 8, SBOX8 (INV_SBOX8 v) = v ∧ INV_SBOX8 (SBOX8 v) = v)
      ∧ (∀ v : Fin 16, SBOX16 (INV_SBOX16 v) = v ∧ INV_SBOX16 (SBOX16 v) = v) := by
  decide

/-- C2: `compute_bct` stores in cell `(a, b)` exactly the number of `x` with
`inv_sbox[sbox[x]^b] ^ inv_sbox[sbox[x^a]^b] == a`, for the 8-entry variant
of the bdt tool and the 16-entry variant of the present tool alike. -/
theorem compute_bct_counts (s8 i8 : Fin 8 → Fin 8) (a b : Fin 8)
    (s16 i16 : Fin 16 → Fin 16) (c d : Fin 16) :
    compute_bct8 s8 i8 a b
      = (Finset.univ.filter fun x =>
          xor8 (i8 (xor8 (s8 x) b)) (i8 (xor8 (s8 (xor8 x a)) b)) = a).card
    ∧ compute_bct16 s16 i16 c d
      = (Finset.univ.filter fun x =>
          xor16 (i16 (xor16 (s16 x) d)) (i16 (xor16 (s16 (xor16 x c)) d)) = c).card :=
  ⟨foldl_count_finRange_eq_card _, foldl_count_finRange_eq_card _⟩

/-- C3: `compute_bdt` stores in cell `(d0, d1, nabla0)` exactly the number of
`x` with `inv_sbox[sbox[x]^nabla0] ^ inv_sbox[sbox[x^d0]^nabla0] == d1`. -/
theorem compute_bdt_counts (sbox inv_sbox : Fin 8 → Fin 8) (d0 d1 nabla0 : Fin 8) :
    compute_bdt8 sbox inv_sbox d0 d1 nabla0
      = (Finset.univ.filter fun x =>
          xor8 (inv_sbox (xor8 (sbox x) nabla0))
            (inv_sbox (xor8 (sbox (xor8 x d0)) nabla0)) = d1).card :=
  foldl_count_finRange_eq_card _

/-- C1 (counterexample): at `d0 = 1`, `nabla0 = 1` with the bdt tool's own
S-box pair, the `d1`-sum of BDT entries (it is `8`) differs from the BCT
entry (it is `2`). -/
theorem bdt_sum_identity_fails :
    ¬ ((∑ d1 : Fin 8, compute_bdt8 SBOX8 INV_SBOX8 1 d1 1)
        = compute_bct8 SBOX8 INV_SBOX8 1 1) := by
  decide

/-- C1 (amended): for every S-box pair the `d1`-sum of BDT entries at
`(d0, ·, nabla0)` is the domain size `8` (the `d1` layers partition the `x`
values), and the single layer `d1 = d0` is exactly the BCT entry; hence the
claimed sum identity holds precisely at cells whose BCT entry is `8`. -/
theorem bdt_sum_eq_domain_size (sbox inv_sbox : Fin 8 → Fin 8) (d0 nabla0 : Fin 8) :
    (∑ d1 : Fin 8, compute_bdt8 sbox inv_sbox d0 d1 nabla0) = 8
      ∧ compute_bdt8 sbox inv_sbox d0 d0 nabla0 = compute_bct8 sbox inv_sbox d0 nabla0 := by
  constructor
  · have hcell : ∀ d1 : Fin 8,
        compute_bdt8 sbox inv_sbox d0 d1 nabla0
          = (Finset.univ.filter fun x =>
              xor8 (inv_sbox (xor8 (sbox x) nabla0))
                (inv_sbox (xor8 (sbox (xor8 x d0)) nabla0)) = d1).card :=
      fun _ => foldl_count_finRange_eq_card _
    calc (∑ d1 : Fin 8, compute_bdt8 sbox inv_sbox d0 d1 nabla0)
        = ∑ d1 : Fin 8, (Finset.univ.filter fun x =>
            xor8 (inv_sbox (xor8 (sbox x) nabla0))
              (inv_sbox (xor8 (sbox (xor8 x d0)) nabla0)) = d1).card := by
          simp only [hcell]
      _ = (Finset.univ : Finset (Fin 8)).card :=
          (Finset.card_eq_sum_card_fiberwise fun x _ => Finset.mem_univ _).symm
      _ = 8 := by simp
  · rfl

/-- C6: for mutually inverse S-box pairs, row `0` and column `0` of the BCT
are identically the domain size `N`, in both the 8-entry and 16-entry
variants. -/
theorem bct_zero_row_and_column (s8 i8 : Fin 8 → Fin 8) (s16 i16 : Fin 16 → Fin 16)
    (h8 : ∀ v, s8 (i8 v) = v ∧ i8 (s8 v) = v)
    (h16 : ∀ v, s16 (i16 v) = v ∧ i16 (s16 v) = v) :
    ((∀ b, compute_bct8 s8 i8 0 b = 8) ∧ (∀ a, compute_bct8 s8 i8 a 0 = 8))
      ∧ ((∀ b, compute_bct16 s16 i16 0 b = 16) ∧ (∀ a, compute_bct16 s16 i16 a 0 = 16)) := by
  refine ⟨⟨fun b => ?_, fun a => ?_⟩, ⟨fun b => ?_, fun a => ?_⟩⟩
  · have h : compute_bct8 s8 i8 0 b
        = (Finset.univ.filter fun x =>
            xor8 (i8 (xor8 (s8 x) b)) (i8 (xor8 (s8 (xor8 x 0)) b)) = 0).card :=
      foldl_count_finRange_eq_card _
    rw [h, Finset.filter_true_of_mem fun x _ => by rw [xor8_zero_right, xor8_self]]
    simp
  · have h : compute_bct8 s8 i8 a 0
        = (Finset.univ.filter fun x =>
            xor8 (i8 (xor8 (s8 x) 0)) (i8 (xor8 (s8 (xor8 x a)) 0)) = a).card :=
      foldl_count_finRange_eq_card _
    rw [h, Finset.filter_true_of_mem fun x _ => by
      rw [xor8_zero_right, xor8_zero_right, (h8 _).2, (h8 _).2, xor8_cancel]]
    simp
  · have h : compute_bct16 s16 i16 0 b
        = (Finset.univ.filter fun x =>
            xor16 (i16 (xor16 (s16 x) b)) (i16 (xor16 (s16 (xor16 x 0)) b)) = 0).card :=
      foldl_count_finRange_eq_card _
    rw [h, Finset.filter_true_of_mem fun x _ => by rw [xor16_zero_right, xor16_self]]
    simp
  · have h : compute_bct16 s16 i16 a 0
        = (Finset.univ.filter fun x =>
            xor16 (i16 (xor16 (s16 x) 0)) (i16 (xor16 (s16 (xor16 x a)) 0)) = a).card :=
      foldl_count_finRange_eq_card _
    rw [h, Finset.filter_true_of_mem fun x _ => by
      rw [xor16_zero_right, xor16_zero_right, (h16 _).2, (h16 _).2, xor16_cancel]]
    simp

/-- Witness for `bct_zero_row_and_column` at the two hardcoded pairs; in
particular `bct[0][b] = 16` for every `b` with the 16-entry pair. -/
theorem bct_zero_row_and_column_witness :
    ((∀ v, SBOX8 (INV_SBOX8 v) = v ∧ INV_SBOX8 (SBOX8 v) = v)
        ∧ (∀ v, SBOX16 (INV_SBOX16 v) = v ∧ INV_SBOX16 (SBOX16 v) = v))
      ∧ (((∀ b, compute_bct8 SBOX8 INV_SBOX8 0 b = 8)
            ∧ (∀ a, compute_bct8 SBOX8 INV_SBOX8 a 0 = 8))
          ∧ ((∀ b, compute_bct16 SBOX16 INV_SBOX16 0 b = 16)
            ∧ (∀ a, compute_bct16 SBOX16 INV_SBOX16 a 0 = 16))) :=
  ⟨⟨by decide, by decide⟩,
    bct_zero_row_and_column SBOX8 INV_SBOX8 SBOX16 INV_SBOX16 (by decide) (by decide)⟩

/-- C7 (counterexample): the consistency check of `main` in
`gimli boomerang/bdt.c` does not count 64 valid pairs. -/
theorem bdt_main_not_all_valid : ¬ (bdt_main_valid_count = 64) := by decide

/-- C7 (amended): with the hardcoded 8-entry pair, `bct[0][0] = 8`, and the
consistency check of `main` counts 15 valid pairs (row `d0 = 0` and column
`nabla0 = 0`) out of 64, leaving `all_ok` cleared by the 49 mismatches. -/
theorem bdt_main_verification_results :
    compute_bct8 SBOX8 INV_SBOX8 0 0 = 8
      ∧ bdt_main_valid_count = 15 ∧ bdt_main_all_ok = false := by
  refine ⟨by decide, by decide, by decide⟩

/-- C9 (counterexample): `compute_bct` of `bct_present.c` does produce
output — the trace of its `printf` payloads at the hardcoded pair is not
empty. -/
theorem compute_bct16_produces_output :
    compute_bct16_output SBOX16 INV_SBOX16 ≠ [] := by decide

/-- C9 (amended): the BCT tables of both `compute_bct` variants and the
output trace of the `bct_present.c` variant are fully determined by the
entries of `sbox` and `inv_sbox`; the `bdt.c` variant contains no print
statement at all, while the `bct_present.c` variant prints exactly its
computed table. -/
theorem compute_bct_determined_by_inputs
    (s8 i8 t8 u8 : Fin 8 → Fin 8) (s16 i16 t16 u16 : Fin 16 → Fin 16)
    (h1 : ∀ v, s8 v = t8 v) (h2 : ∀ v, i8 v = u8 v)
    (h3 : ∀ v, s16 v = t16 v) (h4 : ∀ v, i16 v = u16 v) :
    (∀ a b, compute_bct8 s8 i8 a b = compute_bct8 t8 u8 a b)
      ∧ (∀ a b, compute_bct16 s16 i16 a b = compute_bct16 t16 u16 a b)
      ∧ compute_bct16_output s16 i16 = compute_bct16_output t16 u16 := by
  obtain rfl : s8 = t8 := funext h1
  obtain rfl : i8 = u8 := funext h2
  obtain rfl : s16 = t16 := funext h3
  obtain rfl : i16 = u16 := funext h4
  exact ⟨fun _ _ => rfl, fun _ _ => rfl, rfl⟩

/-- Witness for `compute_bct_determined_by_inputs` at the hardcoded pairs. -/
theorem compute_bct_determined_by_inputs_witness :
    ((∀ v, SBOX8 v = SBOX8 v) ∧ (∀ v, INV_SBOX8 v = INV_SBOX8 v)
        ∧ (∀ v, SBOX16 v = SBOX16 v) ∧ (∀ v, INV_SBOX16 v = INV_SBOX16 v))
      ∧ ((∀ a b, compute_bct8 SBOX8 INV_SBOX8 a b = compute_bct8 SBOX8 INV_SBOX8 a b)
        ∧ (∀ a b, compute_bct16 SBOX16 INV_SBOX16 a b = compute_bct16 SBOX16 INV_SBOX16 a b)
        ∧ compute_bct16_output SBOX16 INV_SBOX16 = compute_bct16_output SBOX16 INV_SBOX16) :=
  ⟨⟨fun _ => rfl, fun _ => rfl, fun _ => rfl, fun _ => rfl⟩,
    compute_bct_determined_by_inputs SBOX8 INV_SBOX8 SBOX8 INV_SBOX8
      SBOX16 INV_SBOX16 SBOX16 INV_SBOX16
      (fun _ => rfl) (fun _ => rfl) (fun _ => rfl) (fun _ => rfl)⟩

/-- C10: for arbitrary (not necessarily bijective) S-box data, every BCT
entry with nonzero input difference and every BDT entry with nonzero `d0`
is even: `x ↦ x ^ a` (resp. `x ^ d0`) is a fixed-point-free involution of
the satisfying set, so satisfying inputs pair up. -/
theorem bct_bdt_entries_even (s8 i8 : Fin 8 → Fin 8) (s16 i16 : Fin 16 → Fin 16)
    (a b d0 d1 nabla0 : Fin 8) (a16 b16 : Fin 16)
    (ha : a ≠ 0) (hd0 : d0 ≠ 0) (ha16 : a16 ≠ 0) :
    Even (compute_bct8 s8 i8 a b)
      ∧ Even (compute_bdt8 s8 i8 d0 d1 nabla0)
      ∧ Even (compute_bct16 s16 i16 a16 b16) := by
  refine ⟨?_, ?_, ?_⟩
  · have h : compute_bct8 s8 i8 a b
        = (Finset.univ.filter fun x =>
            xor8 (i8 (xor8 (s8 x) b)) (i8 (xor8 (s8 (xor8 x a)) b)) = a).card :=
      foldl_count_finRange_eq_card _
    rw [h]
    refine even_card_filter_of_involution _ (fun x => xor8 x a) ?_
      (fun x => xor8_invol x a) (xor8_ne_self a ha)
    intro x hx
    rw [xor8_invol, xor8_comm]
    exact hx
  · have h : compute_bdt8 s8 i8 d0 d1 nabla0
        = (Finset.univ.filter fun x =>
            xor8 (i8 (xor8 (s8 x) nabla0))
              (i8 (xor8 (s8 (xor8 x d0)) nabla0)) = d1).card :=
      foldl_count_finRange_eq_card _
    rw [h]
    refine even_card_filter_of_involution _ (fun x => xor8 x d0) ?_
      (fun x => xor8_invol x d0) (xor8_ne_self d0 hd0)
    intro x hx
    rw [xor8_invol, xor8_comm]
    exact hx
  · have h : compute_bct16 s16 i16 a16 b16
        = (Finset.univ.filter fun x =>
            xor16 (i16 (xor16 (s16 x) b16)) (i16 (xor16 (s16 (xor16 x a16)) b16)) = a16).card :=
      foldl_count_finRange_eq_card _
    rw [h]
    refine even_card_filter_of_involution _ (fun x => xor16 x a16) ?_
      (fun x => xor16_invol x a16) (xor16_ne_self a16 ha16)
    intro x hx
    rw [xor16_invol, xor16_comm]
    exact hx

/-- Witness for `bct_bdt_entries_even` at the hardcoded pairs and nonzero
differences. -/
theorem bct_bdt_entries_even_witness :
    ((1 : Fin 8) ≠ 0 ∧ (1 : Fin 8) ≠ 0 ∧ (1 : Fin 16) ≠ 0)
      ∧ (Even (compute_bct8 SBOX8 INV_SBOX8 1 1)
        ∧ Even (compute_bdt8 SBOX8 INV_SBOX8 1 2 1)
        ∧ Even (compute_bct16 SBOX16 INV_SBOX16 1 1)) :=
  ⟨⟨by decide, by decide, by decide⟩,
    bct_bdt_entries_even SBOX8 INV_SBOX8 SBOX16 INV_SBOX16 1 1 1 2 1 1 1
      (by decide) (by decide) (by decide)⟩

/-- C5: the code's `gimli_permutation` coincides with the permutation as the
specification describes it — rounds `4` down to `1`; per column the
`x`,`y`,`z` rotate/shift/mask formulas; the swap of words `0<->1`, `2<->3`
with the constant `0x9e377900 ^ round` XORed into word `0` when
`round mod 4 = 0`; the swap of words `0<->2`, `1<->3` when
`round mod 4 = 2`. -/
theorem gimli_permutation_matches_stated (s : GState) :
    gimli_permutation s = gimli_permutation_stated s := by
  show gimli_round 1 (gimli_round 2 (gimli_round 3 (gimli_round 4 s))) = _
  rw [gimli_round_eq_stated 4 (by decide), gimli_round_eq_stated 3 (by decide),
    gimli_round_eq_stated 2 (by decide), gimli_round_eq_stated 1 (by decide)]
  rfl

/-- C4: `compute_derivative` equals the XOR over all `2^order` subsets of
the masks `1<<0, ..., 1<<(order-1)` of word `word_index` of the permuted
perturbed base state; in particular at order `1` it is
`permutation(base)[w] ^ permutation(base with bit 0 of word w flipped)[w]`. -/
theorem compute_derivative_eq_stated (base : GState) (w : Fin 12) (order : Nat)
    (h1 : 1 ≤ order) (h4 : order ≤ 4) :
    compute_derivative base w order = derivative_stated base w order
      ∧ compute_derivative base w 1
        = gimli_permutation base w
          ^^^ gimli_permutation (Function.update base w (base w ^^^ 1)) w := by
  constructor
  · unfold compute_derivative derivative_stated
    have hpow : (1 : Nat) <<< order = 2 ^ order := by
      rw [Nat.shiftLeft_eq, Nat.one_mul]
    rw [hpow]
    refine List.foldl_ext _ _ _ fun acc subset _ => ?_
    rw [apply_diff_eq_update base w subset order (by omega)]
  · have h0 : apply_diff base 1 w 0 = base := by
      rw [apply_diff_eq_update base w 0 1 (by norm_num)]
      have : subset_mask_xor 1 0 = 0 := rfl
      rw [this, Nat.xor_zero, Function.update_eq_self]
    have hbit : apply_diff base 1 w 1 = Function.update base w (base w ^^^ 1) := by
      rw [apply_diff_eq_update base w 1 1 (by norm_num)]
      rfl
    show (0 ^^^ gimli_permutation (apply_diff base 1 w 0) w)
        ^^^ gimli_permutation (apply_diff base 1 w 1) w = _
    rw [h0, hbit, Nat.zero_xor]

/-- Witness for `compute_derivative_eq_stated` at the initial state of
`main`, word `0`, order `1`. -/
theorem compute_derivative_eq_stated_witness :
    ((1 : Nat) ≤ 1 ∧ (1 : Nat) ≤ 4)
      ∧ (compute_derivative initial_state 0 1 = derivative_stated initial_state 0 1
        ∧ compute_derivative initial_state 0 1
          = gimli_permutation initial_state 0
            ^^^ gimli_permutation
              (Function.update initial_state 0 (initial_state 0 ^^^ 1)) 0) :=
  ⟨⟨le_refl 1, by norm_num⟩,
    compute_derivative_eq_stated initial_state 0 1 (le_refl 1) (by norm_num)⟩
